import Mathlib

/-!
# elastic-poems: the poem import pipeline

A shallow embedding of the two entry points of the repository,
`src/main.go` (olivere/elastic bulk processor) and `src/cluster/main.go`
(go-elasticsearch bulk indexer): the `Poem` records, the `filepath.Walk`
callbacks, `processFile`, `singleProcessFile` and the run summary.

Go strings are Lean `String`s (sequences of characters; every string that
reaches the pipeline comes out of `json.Unmarshal` or a directory listing).
Library functions whose code is not part of the repository are parameters of
the definitions that call them (`T2S`, `ReadFile`, `Unmarshal`, `Marshal`,
`Join`), except `filepath.Ext`, `strings.HasSuffix` and `filepath.Walk`, which
are transcribed from the Go standard library because the walk properties are
stated about them.
-/

namespace ElasticPoems

/-! ## Go values shared by both entry points -/

/-- Go `error` values that the walk distinguishes: `nil`, the two sentinel
values of `path/filepath` and any other error. -/
inductive GoError where
  | nil
  | SkipDir
  | SkipAll
  | other (msg : String)
deriving DecidableEq, Repr

/-- The part of `os.FileInfo` the callbacks read: `Name()` and `IsDir()`. -/
structure FileInfo where
  Name : String
  IsDir : Bool
deriving DecidableEq, Repr

/-- Contents of a file as `ioutil.ReadFile` returns them. -/
abbrev Bytes := List Nat

/-! ## path/filepath and strings -/

/-- Unix `os.IsPathSeparator`. -/
def IsPathSeparator (c : Char) : Bool := c == '/'

/-- Loop of `filepath.Ext`: `i` is one more than the index examined next,
`for i := len(path) - 1; i >= 0 && !os.IsPathSeparator(path[i]); i--`. -/
def extLoop (path : List Char) : Nat → List Char
  | 0 => []
  | i + 1 =>
    match path[i]? with
    | none => []
    | some c =>
      if IsPathSeparator c then []
      else if c == '.' then path.drop i
      else extLoop path i

/-- Go `filepath.Ext`: the suffix beginning at the final dot in the final
element of `path`; empty if there is no dot. -/
def Ext (path : String) : String := ⟨extLoop path.data path.data.length⟩

/-- Go `strings.HasSuffix`. -/
def HasSuffix (s suffix : String) : Bool := suffix.data.isSuffixOf s.data

/-! ## The normalisation loop of `processFile` -/

/-- Go `make([]string, n)`: a slice of `n` empty strings. -/
def make (n : Nat) : List String := List.replicate n ""

/-- Loop `for i, x := range src { dst[i] = T2S(x) }`. -/
def rangeAssign (T2S : String → String) (src dst : List String) : List String :=
  src.enum.foldl (fun d ix => d.set ix.1 (T2S ix.2)) dst

/-! ## src/main.go -/

namespace Main

/-- The `Poem` struct of `src/main.go`. -/
structure Poem where
  Title : String
  Paragraphs : List String
  Author : String
  Rhythmic : String
  Notes : List String
  Name : String
  Desc : String
  Description : String
deriving DecidableEq, Repr

/-- The value `simplifiedPoem` that one iteration of the loop of
`processFile` builds from `poem` (lines 117-131): the composite literal
leaves `Name`, `Desc` and `Description` at their zero value. -/
def simplifiedPoem (T2S : String → String) (poem : Poem) : Poem :=
  let simplifiedPoem : Poem :=
    { Title := T2S poem.Title
      Author := T2S poem.Author
      Rhythmic := T2S poem.Rhythmic
      Paragraphs := make poem.Paragraphs.length
      Notes := make poem.Notes.length
      Name := ""
      Desc := ""
      Description := "" }
  let simplifiedPoem : Poem :=
    { simplifiedPoem with
      Paragraphs := rangeAssign T2S poem.Paragraphs simplifiedPoem.Paragraphs }
  { simplifiedPoem with Notes := rangeAssign T2S poem.Notes simplifiedPoem.Notes }

/-- Function `processFile` of `src/main.go`; the bulk processor is the list
of documents handed to `bulkProcessor.Add`, oldest first. `Unmarshal`
returns the slice as `json.Unmarshal` left it together with its error. -/
def processFile (T2S : String → String) (ReadFile : String → Except String Bytes)
    (Unmarshal : Bytes → List Poem × GoError) (filePath : String)
    (bulkProcessor : List Poem) : List Poem :=
  match ReadFile filePath with
  | .error _ => bulkProcessor
  | .ok data =>
    match Unmarshal data with
    | (poems, .nil) =>
      poems.foldl (fun bulk poem => bulk ++ [simplifiedPoem T2S poem]) bulkProcessor
    | (_, _) => bulkProcessor

/-- Function `singleProcessFile` of `src/main.go`; the client is the list of
bodies sent with `client.Index().BodyJson(poem)`, oldest first. -/
def singleProcessFile (ReadFile : String → Except String Bytes)
    (Unmarshal : Bytes → List Poem × GoError) (filePath : String)
    (client : List Poem) : List Poem :=
  match ReadFile filePath with
  | .error _ => client
  | .ok data =>
    match Unmarshal data with
    | (poems, .nil) => poems.foldl (fun sent poem => sent ++ [poem]) client
    | (_, _) => client

/-- The callback `main` passes to `filepath.Walk` (lines 72-86), over any
effect `processFile` has on the state `σ`. -/
def walkFn {σ : Type} (processFile : String → σ → σ)
    (path : String) (info : FileInfo) (err : GoError) (s : σ) : GoError × σ :=
  if err ≠ .nil then (err, s)
  else if info.IsDir && info.Name == "error" then (.SkipDir, s)
  else if !info.IsDir && Ext path == ".json" then (.nil, processFile path s)
  else (.nil, s)

end Main

/-! ## src/cluster/main.go -/

namespace Cluster

/-- The `Poem` struct of `src/cluster/main.go`. -/
structure Poem where
  Title : String
  Paragraphs : List String
  Author : String
  Rhythmic : String
  Notes : List String
deriving DecidableEq, Repr

/-- The value `simplifiedPoem` that one iteration of the loop of
`processFile` builds from `poem` (lines 149-163). -/
def simplifiedPoem (T2S : String → String) (poem : Poem) : Poem :=
  let simplifiedPoem : Poem :=
    { Title := T2S poem.Title
      Author := T2S poem.Author
      Rhythmic := T2S poem.Rhythmic
      Paragraphs := make poem.Paragraphs.length
      Notes := make poem.Notes.length }
  let simplifiedPoem : Poem :=
    { simplifiedPoem with
      Paragraphs := rangeAssign T2S poem.Paragraphs simplifiedPoem.Paragraphs }
  { simplifiedPoem with Notes := rangeAssign T2S poem.Notes simplifiedPoem.Notes }

/-- The fields of `esutil.BulkIndexerItem` that `processFile` sets to data
(the two callbacks only log). -/
structure BulkIndexerItem where
  Action : String
  Body : Bytes
deriving DecidableEq, Repr

/-- Function `processFile` of `src/cluster/main.go`; the bulk indexer is the
list of items handed to `bulkIndexer.Add`, oldest first. A record whose
`json.Marshal` fails is skipped by `continue`; the error `Add` returns is
only logged. -/
def processFile (T2S : String → String) (ReadFile : String → Except String Bytes)
    (Unmarshal : Bytes → List Poem × GoError) (Marshal : Poem → Except String Bytes)
    (filePath : String) (bulkIndexer : List BulkIndexerItem) : List BulkIndexerItem :=
  match ReadFile filePath with
  | .error _ => bulkIndexer
  | .ok data =>
    match Unmarshal data with
    | (poems, .nil) =>
      poems.foldl
        (fun bulk poem =>
          match Marshal (simplifiedPoem T2S poem) with
          | .error _ => bulk
          | .ok doc => bulk ++ [{ Action := "index", Body := doc }])
        bulkIndexer
    | (_, _) => bulkIndexer

/-- The callback `main` passes to `filepath.Walk` (lines 78-92), over any
effect `processFile` has on the state `σ`. -/
def walkFn {σ : Type} (processFile : String → σ → σ)
    (path : String) (info : FileInfo) (err : GoError) (s : σ) : GoError × σ :=
  if err ≠ .nil then (err, s)
  else if !info.IsDir && (info.Name == "唐诗补录.json" || info.Name == "表面结构字.json") then
    (.nil, s)
  else if !info.IsDir && Ext path == ".json" then (.nil, processFile path s)
  else (.nil, s)

/-- The counters of `esutil.BulkIndexerStats` (Go `uint64`). -/
structure BulkIndexerStats where
  NumAdded : Nat
  NumFlushed : Nat
  NumFailed : Nat
  NumIndexed : Nat
  NumCreated : Nat
  NumUpdated : Nat
  NumDeleted : Nat
  NumRequests : Nat
deriving DecidableEq, Repr

/-- How `main` ends after `bulkIndexer.Stats()` (lines 105-129): `Fatalf`
is the `log.Fatalf` branch, which prints the two counters and exits with
status 1; `Completed` is the `log.Printf` branch followed by
`log.Println("Indexing completed")` and the return from `main`. -/
inductive RunEnd where
  | Fatalf (flushed failed : Nat)
  | Completed (flushed : Nat)
deriving DecidableEq, Repr

/-- The run summary of `main` (lines 112-129). -/
def reportResults (biStats : BulkIndexerStats) : RunEnd :=
  if biStats.NumFailed > 0 then .Fatalf biStats.NumFlushed biStats.NumFailed
  else .Completed biStats.NumFlushed

/-- Exit status of the process: `log.Fatalf` calls `os.Exit(1)`. -/
def RunEnd.exitCode : RunEnd → Nat
  | .Fatalf _ _ => 1
  | .Completed _ => 0

end Cluster

/-- The item `processFile` of `src/cluster/main.go` adds for a record, if
`json.Marshal` succeeds on its normalized form. -/
def Cluster.itemOf (T2S : String → String) (Marshal : Cluster.Poem → Except String Bytes)
    (poem : Cluster.Poem) : Option Cluster.BulkIndexerItem :=
  match Marshal (Cluster.simplifiedPoem T2S poem) with
  | .error _ => none
  | .ok doc => some { Action := "index", Body := doc }

/-! ## filepath.Walk over a directory tree -/

mutual
/-- A directory tree every entry of which `os.Lstat` can stat and every
directory of which can be listed. The children of a directory stand in the
order `readDirNames` returns them. -/
inductive DirTree where
  | file (name : String)
  | dir (name : String) (children : DirList)
/-- The entries of one directory. -/
inductive DirList where
  | nil
  | cons (t : DirTree) (rest : DirList)
end

/-- The `os.FileInfo` that `Lstat` reports for the root of a tree. -/
def DirTree.info : DirTree → FileInfo
  | .file name => ⟨name, false⟩
  | .dir name _ => ⟨name, true⟩

/-- Signature of a `filepath.WalkFunc` acting on a state `σ`. -/
abbrev WalkFunc (σ : Type) := String → FileInfo → GoError → σ → GoError × σ

mutual
/-- Function `walk` of Go's `path/filepath`, for entries that `lstat` and
`readDirNames` read without error: a non-directory gets
`walkFn(path, info, nil)`; a directory gets `err1 := walkFn(path, info, nil)`,
`walk` returns `err1` if it is not `nil`, and otherwise runs the loop over
the names of the directory. `Join` is `filepath.Join`. -/
def walk {σ : Type} (Join : String → String → String) (walkFn : WalkFunc σ)
    (path : String) (t : DirTree) (s : σ) : GoError × σ :=
  match t with
  | .file name => walkFn path ⟨name, false⟩ .nil s
  | .dir name children =>
    match walkFn path ⟨name, true⟩ .nil s with
    | (.nil, s1) => walkNames Join walkFn path children s1
    | (err1, s1) => (err1, s1)
/-- The loop `for _, name := range names` of `walk`: each child is walked
at `Join(path, name)`; an error of the child is returned, unless the child
is a directory and the error is `SkipDir`, in which case the loop goes on. -/
def walkNames {σ : Type} (Join : String → String → String) (walkFn : WalkFunc σ)
    (path : String) (names : DirList) (s : σ) : GoError × σ :=
  match names with
  | .nil => (.nil, s)
  | .cons t rest =>
    match walk Join walkFn (Join path t.info.Name) t s with
    | (.nil, s1) => walkNames Join walkFn path rest s1
    | (err, s1) =>
      if !t.info.IsDir || err ≠ .SkipDir then (err, s1)
      else walkNames Join walkFn path rest s1
end

/-- Go `filepath.Walk` on a root that `os.Lstat` can stat: `SkipDir` and
`SkipAll` coming out of `walk` become `nil`. -/
def Walk {σ : Type} (Join : String → String → String) (root : String) (t : DirTree)
    (fn : WalkFunc σ) (s : σ) : GoError × σ :=
  match walk Join fn root t s with
  | (.SkipDir, s1) => (.nil, s1)
  | (.SkipAll, s1) => (.nil, s1)
  | r => r

/-- The path `filepath.Join` builds from a clean directory path other than
`.` and `/` and an entry name; used to evaluate walks on concrete trees. -/
def slashJoin (dir name : String) : String := dir ++ "/" ++ name

/-- Instrumented `processFile`: records the path it is called with. -/
def recordCall (path : String) (calls : List String) : List String := calls ++ [path]

/-! ## The entries of a tree, as the walk properties speak of them -/

/-- One entry of a walked tree: the path the walk gives it, its file info
and the names of the directories of the tree that enclose it, outermost
first. -/
structure Visit where
  path : String
  info : FileInfo
  ancestors : List String
deriving DecidableEq, Repr

mutual
/-- Every entry of the tree rooted at `path`, directories before their
contents, siblings in listing order. -/
def entries (Join : String → String → String) (path : String) (anc : List String) :
    DirTree → List Visit
  | .file name => [⟨path, ⟨name, false⟩, anc⟩]
  | .dir name children =>
    ⟨path, ⟨name, true⟩, anc⟩ :: entriesOf Join path (anc ++ [name]) children
/-- The entries of the trees listed in the directory `path`. -/
def entriesOf (Join : String → String → String) (path : String) (anc : List String) :
    DirList → List Visit
  | .nil => []
  | .cons t rest => entries Join (Join path t.info.Name) anc t ++ entriesOf Join path anc rest
end

/-- An entry lies under a directory named exactly `error`. -/
def Visit.underErrorDir (v : Visit) : Bool := v.ancestors.contains "error"

/-- An entry is a non-directory named `唐诗补录.json` or `表面结构字.json`. -/
def Visit.isExcludedFile (v : Visit) : Bool :=
  !v.info.IsDir && (v.info.Name == "唐诗补录.json" || v.info.Name == "表面结构字.json")

/-- An entry is a non-directory whose path has the extension `.json`. -/
def Visit.isJsonFile (v : Visit) : Bool := !v.info.IsDir && Ext v.path == ".json"

/-! ## File loading and the normalizer, as the spec words them -/

/-- The File Loader of the spec (section 4.2): the records of a file, and
an empty result on read failure or decode failure. -/
def fileRecords {α : Type} (ReadFile : String → Except String Bytes)
    (Unmarshal : Bytes → List α × GoError) (filePath : String) : List α :=
  match ReadFile filePath with
  | .error _ => []
  | .ok data =>
    match Unmarshal data with
    | (poems, .nil) => poems
    | (_, _) => []

/-- A file cannot be read, or its content does not decode. -/
def loadFails {α : Type} (ReadFile : String → Except String Bytes)
    (Unmarshal : Bytes → List α × GoError) (filePath : String) : Bool :=
  match ReadFile filePath with
  | .error _ => true
  | .ok data => decide ((Unmarshal data).2 ≠ .nil)

/-- Modelled from the spec: the normalizer `gojianfan.T2S`, a function of a
third-party package whose code and mapping table are not under src/. Per
section 4.1 every character present in the fixed mapping table is replaced
by its counterpart and characters absent from the table pass through
unchanged. The table is a list of (traditional, simplified) pairs. -/
def T2S (table : List (Char × Char)) (s : String) : String :=
  ⟨s.data.map (fun c => (table.lookup c).getD c)⟩

/-- The characters that are keys of a mapping table. -/
def tableKeys (table : List (Char × Char)) : List Char := table.map Prod.fst

/-- A string contains no character that is a key of the table. -/
def unmapped (table : List (Char × Char)) (s : String) : Prop :=
  ∀ c ∈ s.data, c ∉ tableKeys table

/-- The five strings and string lists of a record of `src/main.go` that
`processFile` normalizes. -/
def Main.Poem.texts (p : Main.Poem) : List String :=
  p.Title :: p.Author :: p.Rhythmic :: (p.Paragraphs ++ p.Notes)

/-- The five strings and string lists of a record of `src/cluster/main.go`
that `processFile` normalizes. -/
def Cluster.Poem.texts (p : Cluster.Poem) : List String :=
  p.Title :: p.Author :: p.Rhythmic :: (p.Paragraphs ++ p.Notes)

/-- A record whose text holds no traditional-only character. -/
def nightThoughts : Main.Poem :=
  { Title := "夜思", Paragraphs := ["床前明月光"], Author := "李白", Rhythmic := "",
    Notes := [], Name := "", Desc := "", Description := "" }

/-- The state after `processFile` has been invoked on each of `paths` in
turn. -/
def invokeAll {σ : Type} (processFile : String → σ → σ) (paths : List String) (s : σ) : σ :=
  paths.foldl (fun s path => processFile path s) s

/-- A directory `poems` holding one file named `唐诗补录.json`. -/
def treeWithExcludedName : DirTree :=
  .dir "poems" (.cons (.file "唐诗补录.json") .nil)

/-- A directory `poems` holding a directory `error` with one file `a.json`
in it. -/
def treeWithErrorDir : DirTree :=
  .dir "poems" (.cons (.dir "error" (.cons (.file "a.json") .nil)) .nil)

/-- A `ReadFile` under which every file holds the two bytes `[{`. -/
def readTruncated (_ : String) : Except String Bytes := .ok [91, 123]

/-- An `Unmarshal` for `src/main.go` that fails after it has stored one
element in the slice. -/
def Main.unmarshalPartial (_ : Bytes) : List Main.Poem × GoError :=
  ([{ Title := "", Paragraphs := [], Author := "", Rhythmic := "", Notes := [],
      Name := "", Desc := "", Description := "" }],
   .other "unexpected end of JSON input")

/-- An `Unmarshal` for `src/cluster/main.go` that fails after it has stored
one element in the slice. -/
def Cluster.unmarshalPartial (_ : Bytes) : List Cluster.Poem × GoError :=
  ([{ Title := "", Paragraphs := [], Author := "", Rhythmic := "", Notes := [] }],
   .other "unexpected end of JSON input")

/-- A directory `poems` with a file named `唐诗补录.json`, a directory
`error` holding `a.json`, a file `b.json` and a file `c.txt`. -/
def sampleTree : DirTree :=
  .dir "poems"
    (.cons (.file "唐诗补录.json")
      (.cons (.dir "error" (.cons (.file "a.json") .nil))
        (.cons (.file "b.json") (.cons (.file "c.txt") .nil))))

/-! ## Theorems -/

theorem rangeAssign_enumFrom (T2S : String → String) (src : List String) :
    ∀ (done rest : List String), rest.length = src.length →
      (src.enumFrom done.length).foldl (fun d ix => d.set ix.1 (T2S ix.2)) (done ++ rest)
        = done ++ src.map T2S := by
  induction src with
  | nil =>
    intro done rest h
    have : rest = [] := List.length_eq_zero.mp (by simpa using h)
    simp [this]
  | cons x xs ih =>
    intro done rest h
    cases rest with
    | nil => simp at h
    | cons r rest =>
      simp only [List.enumFrom_cons, List.foldl_cons, List.map_cons]
      have hset : (done ++ r :: rest).set done.length (T2S x) = (done ++ [T2S x]) ++ rest := by
        simp
      rw [hset]
      have := ih (done ++ [T2S x]) rest (by simpa using h)
      simpa using this

theorem rangeAssign_make (T2S : String → String) (src : List String) :
    rangeAssign T2S src (make src.length) = src.map T2S := by
  have := rangeAssign_enumFrom T2S src [] (make src.length) (by simp [make])
  simpa [rangeAssign, List.enum] using this

theorem foldl_append_singleton {α β : Type} (f : α → β) (xs : List α) :
    ∀ acc : List β, xs.foldl (fun b x => b ++ [f x]) acc = acc ++ xs.map f := by
  induction xs with
  | nil => intro acc; simp
  | cons x xs ih => intro acc; simp [ih]

theorem foldl_append_option {α β : Type} (f : α → Option β) (g : List β → α → List β)
    (hg : ∀ b x, g b x = b ++ (f x).toList) (xs : List α) :
    ∀ acc : List β, xs.foldl g acc = acc ++ xs.filterMap f := by
  induction xs with
  | nil => intro acc; simp
  | cons x xs ih =>
    intro acc
    rw [List.foldl_cons, ih, hg]
    cases h : f x <;> simp [List.filterMap_cons, h]

theorem main_processFile_eq (T2S : String → String) (ReadFile : String → Except String Bytes)
    (Unmarshal : Bytes → List Main.Poem × GoError) (filePath : String)
    (bulk : List Main.Poem) :
    Main.processFile T2S ReadFile Unmarshal filePath bulk
      = bulk ++ (fileRecords ReadFile Unmarshal filePath).map (Main.simplifiedPoem T2S) := by
  unfold Main.processFile fileRecords
  cases ReadFile filePath with
  | error e => simp
  | ok data =>
    rcases hU : Unmarshal data with ⟨poems, err⟩
    cases err <;> simp [hU, foldl_append_singleton]

theorem main_singleProcessFile_eq (ReadFile : String → Except String Bytes)
    (Unmarshal : Bytes → List Main.Poem × GoError) (filePath : String)
    (client : List Main.Poem) :
    Main.singleProcessFile ReadFile Unmarshal filePath client
      = client ++ fileRecords ReadFile Unmarshal filePath := by
  unfold Main.singleProcessFile fileRecords
  cases ReadFile filePath with
  | error e => simp
  | ok data =>
    rcases hU : Unmarshal data with ⟨poems, err⟩
    cases err <;> simp [hU, foldl_append_singleton (fun p : Main.Poem => p)]

theorem cluster_processFile_eq (T2S : String → String)
    (ReadFile : String → Except String Bytes)
    (Unmarshal : Bytes → List Cluster.Poem × GoError)
    (Marshal : Cluster.Poem → Except String Bytes) (filePath : String)
    (bulk : List Cluster.BulkIndexerItem) :
    Cluster.processFile T2S ReadFile Unmarshal Marshal filePath bulk
      = bulk ++ (fileRecords ReadFile Unmarshal filePath).filterMap
          (Cluster.itemOf T2S Marshal) := by
  have hg : ∀ (b : List Cluster.BulkIndexerItem) (x : Cluster.Poem),
      (match Marshal (Cluster.simplifiedPoem T2S x) with
        | .error _ => b
        | .ok doc => b ++ [{ Action := "index", Body := doc }])
        = b ++ (Cluster.itemOf T2S Marshal x).toList := by
    intro b x
    unfold Cluster.itemOf
    cases Marshal (Cluster.simplifiedPoem T2S x) <;> simp
  unfold Cluster.processFile fileRecords
  cases ReadFile filePath with
  | error e => simp
  | ok data =>
    rcases hU : Unmarshal data with ⟨poems, err⟩
    cases err <;> simp [hU]
    exact foldl_append_option (Cluster.itemOf T2S Marshal) _ hg poems bulk

theorem main_simplifiedPoem_eq (T2S : String → String) (p : Main.Poem) :
    Main.simplifiedPoem T2S p =
      { Title := T2S p.Title, Paragraphs := p.Paragraphs.map T2S, Author := T2S p.Author,
        Rhythmic := T2S p.Rhythmic, Notes := p.Notes.map T2S,
        Name := "", Desc := "", Description := "" } := by
  simp [Main.simplifiedPoem, rangeAssign_make]

theorem cluster_simplifiedPoem_eq (T2S : String → String) (p : Cluster.Poem) :
    Cluster.simplifiedPoem T2S p =
      { Title := T2S p.Title, Paragraphs := p.Paragraphs.map T2S, Author := T2S p.Author,
        Rhythmic := T2S p.Rhythmic, Notes := p.Notes.map T2S } := by
  simp [Cluster.simplifiedPoem, rangeAssign_make]

/-- C1: the record `processFile` builds from a decoded record is the
field-wise image under `T2S` in both entry points: title, author and
rhythmic are the images of the input fields, paragraphs and notes keep
their length and hold at every index the image of the input entry at that
index; and the documents a file contributes are built from its decoded
records, one by one and in order. -/
theorem processFile_fieldwise_map (T2S : String → String) :
    (∀ p : Main.Poem,
      (Main.simplifiedPoem T2S p).Title = T2S p.Title ∧
      (Main.simplifiedPoem T2S p).Author = T2S p.Author ∧
      (Main.simplifiedPoem T2S p).Rhythmic = T2S p.Rhythmic ∧
      (Main.simplifiedPoem T2S p).Paragraphs.length = p.Paragraphs.length ∧
      (∀ i : Nat, (Main.simplifiedPoem T2S p).Paragraphs[i]? = (p.Paragraphs[i]?).map T2S) ∧
      (Main.simplifiedPoem T2S p).Notes.length = p.Notes.length ∧
      (∀ i : Nat, (Main.simplifiedPoem T2S p).Notes[i]? = (p.Notes[i]?).map T2S)) ∧
    (∀ p : Cluster.Poem,
      (Cluster.simplifiedPoem T2S p).Title = T2S p.Title ∧
      (Cluster.simplifiedPoem T2S p).Author = T2S p.Author ∧
      (Cluster.simplifiedPoem T2S p).Rhythmic = T2S p.Rhythmic ∧
      (Cluster.simplifiedPoem T2S p).Paragraphs.length = p.Paragraphs.length ∧
      (∀ i : Nat,
        (Cluster.simplifiedPoem T2S p).Paragraphs[i]? = (p.Paragraphs[i]?).map T2S) ∧
      (Cluster.simplifiedPoem T2S p).Notes.length = p.Notes.length ∧
      (∀ i : Nat, (Cluster.simplifiedPoem T2S p).Notes[i]? = (p.Notes[i]?).map T2S)) ∧
    (∀ ReadFile Unmarshal filePath bulk,
      Main.processFile T2S ReadFile Unmarshal filePath bulk
        = bulk ++ (fileRecords ReadFile Unmarshal filePath).map (Main.simplifiedPoem T2S)) ∧
    (∀ ReadFile Unmarshal Marshal filePath bulk,
      Cluster.processFile T2S ReadFile Unmarshal Marshal filePath bulk
        = bulk ++ (fileRecords ReadFile Unmarshal filePath).filterMap
            (Cluster.itemOf T2S Marshal)) := by
  refine ⟨fun p => ?_, fun p => ?_, ?_, ?_⟩
  · rw [main_simplifiedPoem_eq]; simp
  · rw [cluster_simplifiedPoem_eq]; simp
  · exact main_processFile_eq T2S
  · exact cluster_processFile_eq T2S

/-- C10: in `src/main.go` the record `processFile` submits has empty
`Name`, `Desc` and `Description` whatever the decoded record holds there,
so every document the batch path adds for a file has the three fields
empty, whereas `singleProcessFile` sends the decoded records as they are. -/
theorem processFile_drops_name_desc_description (T2S : String → String) :
    (∀ p : Main.Poem,
      (Main.simplifiedPoem T2S p).Name = "" ∧
      (Main.simplifiedPoem T2S p).Desc = "" ∧
      (Main.simplifiedPoem T2S p).Description = "") ∧
    (∀ ReadFile Unmarshal filePath,
      (Main.processFile T2S ReadFile Unmarshal filePath []).all
        (fun doc => doc.Name == "" && doc.Desc == "" && doc.Description == "") = true) ∧
    (∀ ReadFile Unmarshal filePath,
      Main.singleProcessFile ReadFile Unmarshal filePath []
        = fileRecords ReadFile Unmarshal filePath) := by
  refine ⟨fun p => ?_, fun R U f => ?_, fun R U f => ?_⟩
  · rw [main_simplifiedPoem_eq]; simp
  · rw [main_processFile_eq]
    simp [List.all_eq_true, main_simplifiedPoem_eq]
  · rw [main_singleProcessFile_eq]; simp

/-- C9: after the bulk indexer is closed, the run of `src/cluster/main.go`
ends in the fatal branch, and so with a non-zero exit status, exactly when
`NumFailed > 0`, whatever `NumFlushed` is; with `NumFailed = 0` it
completes with exit status 0. -/
theorem reportResults_fatal_iff_failed (biStats : Cluster.BulkIndexerStats) :
    (Cluster.reportResults biStats
        = Cluster.RunEnd.Fatalf biStats.NumFlushed biStats.NumFailed
      ↔ biStats.NumFailed > 0) ∧
    ((Cluster.reportResults biStats).exitCode ≠ 0 ↔ biStats.NumFailed > 0) ∧
    (Cluster.reportResults biStats = Cluster.RunEnd.Completed biStats.NumFlushed
      ↔ biStats.NumFailed = 0) ∧
    ((Cluster.reportResults biStats).exitCode = 0 ↔ biStats.NumFailed = 0) := by
  unfold Cluster.reportResults
  by_cases h : biStats.NumFailed > 0
  · simp [h, Cluster.RunEnd.exitCode]; omega
  · simp [h, Cluster.RunEnd.exitCode]; omega

/-! ### The normalizer -/

theorem lookup_getD_of_not_key (table : List (Char × Char)) (c : Char)
    (h : c ∉ tableKeys table) : (table.lookup c).getD c = c := by
  induction table with
  | nil => simp
  | cons kv rest ih =>
    obtain ⟨k, v⟩ := kv
    simp only [tableKeys, List.map_cons, List.mem_cons, not_or] at h
    have hne : (c == k) = false := by simpa using h.1
    rw [List.lookup_cons, hne]
    exact ih (by simpa [tableKeys] using h.2)

theorem T2S_of_unmapped (table : List (Char × Char)) (s : String) (h : unmapped table s) :
    T2S table s = s := by
  apply String.ext
  show s.data.map (fun c => (table.lookup c).getD c) = s.data
  have : ∀ c ∈ s.data, (fun c => (table.lookup c).getD c) c = id c := fun c hc =>
    lookup_getD_of_not_key table c (h c hc)
  rw [List.map_congr_left this, List.map_id]

theorem map_T2S_of_unmapped (table : List (Char × Char)) (xs : List String)
    (h : ∀ s ∈ xs, unmapped table s) : xs.map (T2S table) = xs := by
  have : ∀ s ∈ xs, T2S table s = id s := fun s hs => T2S_of_unmapped table s (h s hs)
  rw [List.map_congr_left this, List.map_id]

/-- C7: on a string that contains no key of the mapping table the
normalizer returns the string itself; hence for a record of `src/main.go`
whose title, author, rhythmic, paragraphs and notes contain no key, the
five normalized fields equal the input fields. -/
theorem T2S_identity_on_unmapped (table : List (Char × Char)) :
    (∀ s : String, unmapped table s → T2S table s = s) ∧
    (∀ p : Main.Poem, (∀ s ∈ p.texts, unmapped table s) →
      (Main.simplifiedPoem (T2S table) p).Title = p.Title ∧
      (Main.simplifiedPoem (T2S table) p).Author = p.Author ∧
      (Main.simplifiedPoem (T2S table) p).Rhythmic = p.Rhythmic ∧
      (Main.simplifiedPoem (T2S table) p).Paragraphs = p.Paragraphs ∧
      (Main.simplifiedPoem (T2S table) p).Notes = p.Notes) := by
  refine ⟨T2S_of_unmapped table, fun p h => ?_⟩
  rw [main_simplifiedPoem_eq]
  simp only [Main.Poem.texts, List.mem_cons, List.mem_append] at h
  refine ⟨T2S_of_unmapped table _ (h _ (Or.inl rfl)),
    T2S_of_unmapped table _ (h _ (Or.inr (Or.inl rfl))),
    T2S_of_unmapped table _ (h _ (Or.inr (Or.inr (Or.inl rfl)))),
    map_T2S_of_unmapped table _ (fun s hs => h s (Or.inr (Or.inr (Or.inr (Or.inl hs))))),
    map_T2S_of_unmapped table _ (fun s hs => h s (Or.inr (Or.inr (Or.inr (Or.inr hs)))))⟩

/-- Witness of C7: with the table that maps 靜 to 静, the record of the
poem 床前明月光 by 李白 contains no key and is left as it is. -/
theorem T2S_identity_on_unmapped_witness :
    T2S [('靜', '静')] "李白" = "李白" ∧
    (Main.simplifiedPoem (T2S [('靜', '静')]) nightThoughts).Paragraphs = ["床前明月光"] :=
  ⟨(T2S_identity_on_unmapped [('靜', '静')]).1 "李白" (by simp [unmapped, tableKeys]),
   ((T2S_identity_on_unmapped [('靜', '静')]).2 nightThoughts
      (by simp [unmapped, tableKeys, Main.Poem.texts, nightThoughts])).2.2.2.1⟩

theorem extLoop_suffix (path : List Char) : ∀ n, extLoop path n <:+ path := by
  intro n
  induction n with
  | zero => simp [extLoop]
  | succ i ih =>
    unfold extLoop
    cases path[i]? with
    | none => simp
    | some c =>
      simp only
      split
      · simp
      · split
        · exact List.drop_suffix i path
        · exact ih

theorem extLoop_json (pre : List Char) :
    extLoop (pre ++ ['.', 'j', 's', 'o', 'n']) (pre.length + 5) = ['.', 'j', 's', 'o', 'n'] := by
  have h4 : (pre ++ ['.', 'j', 's', 'o', 'n'])[pre.length + 4]? = some 'n' := by
    rw [List.getElem?_append_right (by omega)]; simp
  have h3 : (pre ++ ['.', 'j', 's', 'o', 'n'])[pre.length + 3]? = some 'o' := by
    rw [List.getElem?_append_right (by omega)]; simp
  have h2 : (pre ++ ['.', 'j', 's', 'o', 'n'])[pre.length + 2]? = some 's' := by
    rw [List.getElem?_append_right (by omega)]; simp
  have h1 : (pre ++ ['.', 'j', 's', 'o', 'n'])[pre.length + 1]? = some 'j' := by
    rw [List.getElem?_append_right (by omega)]; simp
  have h0 : (pre ++ ['.', 'j', 's', 'o', 'n'])[pre.length]? = some '.' := by
    rw [List.getElem?_append_right (by omega)]; simp
  have e5 : extLoop (pre ++ ['.', 'j', 's', 'o', 'n']) (pre.length + 5)
      = extLoop (pre ++ ['.', 'j', 's', 'o', 'n']) (pre.length + 4) := by
    rw [extLoop, h4]; simp [IsPathSeparator]
  have e4 : extLoop (pre ++ ['.', 'j', 's', 'o', 'n']) (pre.length + 4)
      = extLoop (pre ++ ['.', 'j', 's', 'o', 'n']) (pre.length + 3) := by
    rw [extLoop, h3]; simp [IsPathSeparator]
  have e3 : extLoop (pre ++ ['.', 'j', 's', 'o', 'n']) (pre.length + 3)
      = extLoop (pre ++ ['.', 'j', 's', 'o', 'n']) (pre.length + 2) := by
    rw [extLoop, h2]; simp [IsPathSeparator]
  have e2 : extLoop (pre ++ ['.', 'j', 's', 'o', 'n']) (pre.length + 2)
      = extLoop (pre ++ ['.', 'j', 's', 'o', 'n']) (pre.length + 1) := by
    rw [extLoop, h1]; simp [IsPathSeparator]
  rw [e5, e4, e3, e2, extLoop, h0]
  simp [IsPathSeparator]

theorem Ext_eq_json_iff (path : String) : Ext path = ".json" ↔ HasSuffix path ".json" = true := by
  unfold HasSuffix
  rw [List.isSuffixOf_iff_suffix]
  constructor
  · intro h
    have h2 : extLoop path.data path.data.length = ".json".data := congrArg String.data h
    rw [← h2]
    exact extLoop_suffix _ _
  · rintro ⟨pre, hpre⟩
    apply String.ext
    show extLoop path.data path.data.length = ['.', 'j', 's', 'o', 'n']
    have hd : path.data = pre ++ ['.', 'j', 's', 'o', 'n'] := hpre.symm
    rw [hd]
    have := extLoop_json pre
    simpa using this


/-! ### The walks -/

theorem invokeAll_append {σ : Type} (pf : String → σ → σ) (xs ys : List String) (s : σ) :
    invokeAll pf (xs ++ ys) s = invokeAll pf ys (invokeAll pf xs s) := by
  simp [invokeAll]

theorem invokeAll_filter_singleton {σ : Type} (pf : String → σ → σ) (p : Visit → Bool)
    (v : Visit) (s : σ) :
    invokeAll pf ((([v] : List Visit).filter p).map (·.path)) s
      = if p v = true then pf v.path s else s := by
  cases h : p v <;> simp [invokeAll, List.filter_cons, h]

theorem cluster_walkFn_nil {σ : Type} (pf : String → σ → σ) (path : String) (info : FileInfo)
    (s : σ) :
    Cluster.walkFn pf path info .nil s
      = (.nil, if ((!info.IsDir && Ext path == ".json") &&
            !(!info.IsDir && (info.Name == "唐诗补录.json" || info.Name == "表面结构字.json")))
            = true
          then pf path s else s) := by
  unfold Cluster.walkFn
  generalize (info.Name == "唐诗补录.json" || info.Name == "表面结构字.json") = x
  generalize (Ext path == ".json") = j
  cases info.IsDir <;> cases x <;> cases j <;> simp

theorem cluster_walkFn_file {σ : Type} (pf : String → σ → σ) (path name : String)
    (anc : List String) (s : σ) :
    Cluster.walkFn pf path ⟨name, false⟩ .nil s
      = (.nil, invokeAll pf
          ((([⟨path, ⟨name, false⟩, anc⟩] : List Visit).filter
            (fun v => v.isJsonFile && !v.isExcludedFile)).map (·.path)) s) := by
  rw [cluster_walkFn_nil, invokeAll_filter_singleton]
  rfl

theorem cluster_walkFn_dir {σ : Type} (pf : String → σ → σ) (path name : String) (s : σ) :
    Cluster.walkFn pf path ⟨name, true⟩ .nil s = (.nil, s) := by
  simp [Cluster.walkFn]

mutual
theorem cluster_walk_eq {σ : Type} (Join : String → String → String) (pf : String → σ → σ) :
    ∀ (t : DirTree) (path : String) (anc : List String) (s : σ),
      walk Join (Cluster.walkFn pf) path t s
        = (.nil, invokeAll pf
            (((entries Join path anc t).filter
              (fun v => v.isJsonFile && !v.isExcludedFile)).map (·.path)) s)
  | .file name, path, anc, s => by
    rw [walk, entries]
    exact cluster_walkFn_file pf path name anc s
  | .dir name children, path, anc, s => by
    rw [walk, entries, cluster_walkFn_dir]
    simp only
    rw [cluster_walkNames_eq Join pf children path (anc ++ [name]) s]
    simp [Visit.isJsonFile]
theorem cluster_walkNames_eq {σ : Type} (Join : String → String → String)
    (pf : String → σ → σ) :
    ∀ (ts : DirList) (path : String) (anc : List String) (s : σ),
      walkNames Join (Cluster.walkFn pf) path ts s
        = (.nil, invokeAll pf
            (((entriesOf Join path anc ts).filter
              (fun v => v.isJsonFile && !v.isExcludedFile)).map (·.path)) s)
  | .nil, path, anc, s => by
    simp [walkNames, entriesOf, invokeAll]
  | .cons t rest, path, anc, s => by
    rw [walkNames, entriesOf, cluster_walk_eq Join pf t (Join path t.info.Name) anc s]
    simp only
    rw [cluster_walkNames_eq Join pf rest path anc]
    simp [invokeAll_append]
end


theorem main_walkFn_nil {σ : Type} (pf : String → σ → σ) (path : String) (info : FileInfo)
    (s : σ) :
    Main.walkFn pf path info .nil s
      = if (info.IsDir && info.Name == "error") = true then (.SkipDir, s)
        else (.nil, if (!info.IsDir && Ext path == ".json") = true then pf path s else s) := by
  unfold Main.walkFn
  generalize (info.Name == "error") = x
  generalize (Ext path == ".json") = j
  cases info.IsDir <;> cases x <;> cases j <;> simp

mutual
theorem entries_underErrorDir (Join : String → String → String) :
    ∀ (t : DirTree) (path : String) (anc : List String), "error" ∈ anc →
      ∀ v ∈ entries Join path anc t, v.underErrorDir = true
  | .file name, path, anc, h => by
    simp [entries, Visit.underErrorDir, h]
  | .dir name children, path, anc, h => by
    intro v hv
    rw [entries, List.mem_cons] at hv
    rcases hv with rfl | hv
    · simp [Visit.underErrorDir, h]
    · exact entriesOf_underErrorDir Join children path (anc ++ [name])
        (List.mem_append_left _ h) v hv
theorem entriesOf_underErrorDir (Join : String → String → String) :
    ∀ (ts : DirList) (path : String) (anc : List String), "error" ∈ anc →
      ∀ v ∈ entriesOf Join path anc ts, v.underErrorDir = true
  | .nil, path, anc, h => by
    simp [entriesOf]
  | .cons t rest, path, anc, h => by
    intro v hv
    rw [entriesOf, List.mem_append] at hv
    rcases hv with hv | hv
    · exact entries_underErrorDir Join t (Join path t.info.Name) anc h v hv
    · exact entriesOf_underErrorDir Join rest path anc h v hv
end

theorem filter_entriesOf_error (Join : String → String → String) (ts : DirList)
    (path : String) (anc : List String) (h : "error" ∈ anc) :
    (entriesOf Join path anc ts).filter (fun v => v.isJsonFile && !v.underErrorDir) = [] := by
  rw [List.filter_eq_nil_iff]
  intro v hv
  simp [entriesOf_underErrorDir Join ts path anc h v hv]

theorem filter_dir_cons (q : Visit → Bool) (path name : String) (anc : List String)
    (l : List Visit) :
    ((⟨path, ⟨name, true⟩, anc⟩ : Visit) :: l).filter (fun v => v.isJsonFile && q v)
      = l.filter (fun v => v.isJsonFile && q v) := by
  rw [List.filter_cons_of_neg]
  simp [Visit.isJsonFile]

theorem walkNames_step {σ : Type} (Join : String → String → String) (fn : WalkFunc σ)
    (path : String) (t : DirTree) (rest : DirList) (s s1 : σ) (err : GoError)
    (hw : walk Join fn (Join path t.info.Name) t s = (err, s1))
    (hskip : err = .nil ∨ (err = .SkipDir ∧ t.info.IsDir = true)) :
    walkNames Join fn path (.cons t rest) s = walkNames Join fn path rest s1 := by
  rw [walkNames, hw]
  rcases hskip with rfl | ⟨rfl, hd⟩
  · rfl
  · simp [hd]

mutual
theorem main_walk_eq {σ : Type} (Join : String → String → String) (pf : String → σ → σ) :
    ∀ (t : DirTree) (path : String) (anc : List String) (s : σ), "error" ∉ anc →
      walk Join (Main.walkFn pf) path t s
        = (if (t.info.IsDir && t.info.Name == "error") = true then .SkipDir else .nil,
           invokeAll pf
            (((entries Join path anc t).filter
              (fun v => v.isJsonFile && !v.underErrorDir)).map (·.path)) s)
  | .file name, path, anc, s, h => by
    rw [walk, entries, main_walkFn_nil, invokeAll_filter_singleton]
    simp [DirTree.info, Visit.isJsonFile, Visit.underErrorDir, h]
  | .dir name children, path, anc, s, h => by
    rw [walk, entries, filter_dir_cons, main_walkFn_nil]
    by_cases hn : name = "error"
    · subst hn
      rw [filter_entriesOf_error Join children path (anc ++ ["error"]) (by simp)]
      simp [DirTree.info, invokeAll]
    · have h2 : "error" ∉ anc ++ [name] := by
        simp only [List.mem_append, List.mem_singleton, not_or]
        exact ⟨h, fun e => hn e.symm⟩
      have hw := main_walkNames_eq Join pf children path (anc ++ [name]) s h2
      simp [DirTree.info, hn, hw]
theorem main_walkNames_eq {σ : Type} (Join : String → String → String)
    (pf : String → σ → σ) :
    ∀ (ts : DirList) (path : String) (anc : List String) (s : σ), "error" ∉ anc →
      walkNames Join (Main.walkFn pf) path ts s
        = (.nil, invokeAll pf
            (((entriesOf Join path anc ts).filter
              (fun v => v.isJsonFile && !v.underErrorDir)).map (·.path)) s)
  | .nil, path, anc, s, h => by
    simp [walkNames, entriesOf, invokeAll]
  | .cons t rest, path, anc, s, h => by
    have hw := main_walk_eq Join pf t (Join path t.info.Name) anc s h
    rw [walkNames_step Join _ path t rest s _ _ hw, entriesOf,
      main_walkNames_eq Join pf rest path anc _ h]
    · simp [invokeAll_append]
    · by_cases hc : (t.info.IsDir && t.info.Name == "error") = true
      · right
        simp only [Bool.and_eq_true] at hc
        simp [hc.1, hc.2]
      · left
        simp [hc]
end


theorem invokeAll_recordCall (paths calls : List String) :
    invokeAll recordCall paths calls = calls ++ paths := by
  induction paths generalizing calls with
  | nil => simp [invokeAll]
  | cons p ps ih =>
    have := ih (calls ++ [p])
    simp only [invokeAll, List.foldl_cons, recordCall] at this ⊢
    rw [this]
    simp

theorem main_Walk_eq {σ : Type} (Join : String → String → String) (pf : String → σ → σ)
    (root : String) (t : DirTree) (s : σ) :
    Walk Join root t (Main.walkFn pf) s
      = (.nil, invokeAll pf
          (((entries Join root [] t).filter
            (fun v => v.isJsonFile && !v.underErrorDir)).map (·.path)) s) := by
  unfold Walk
  rw [main_walk_eq Join pf t root [] s (by simp)]
  by_cases hc : (t.info.IsDir && t.info.Name == "error") = true
  · simp only [hc, if_true]
  · simp [hc]

theorem cluster_Walk_eq {σ : Type} (Join : String → String → String) (pf : String → σ → σ)
    (root : String) (t : DirTree) (s : σ) :
    Walk Join root t (Cluster.walkFn pf) s
      = (.nil, invokeAll pf
          (((entries Join root [] t).filter
            (fun v => v.isJsonFile && !v.isExcludedFile)).map (·.path)) s) := by
  unfold Walk
  rw [cluster_walk_eq Join pf t root [] s]

/-- C2: on every directory tree the walk of `src/cluster/main.go` returns
`nil` and invokes `processFile` on exactly the entries that are
non-directories with extension `.json` and are not named `唐诗补录.json`
or `表面结构字.json`, at any depth, once each and in walk order; so an
entry with one of the two names is never passed and every other `.json`
file is. -/
theorem cluster_walk_skips_named_files {σ : Type} (Join : String → String → String)
    (processFile : String → σ → σ) (root : String) (t : DirTree) (s : σ) :
    Walk Join root t (Cluster.walkFn processFile) s
        = (.nil, invokeAll processFile
            (((entries Join root [] t).filter
              (fun v => v.isJsonFile && !v.isExcludedFile)).map (·.path)) s) ∧
    (Walk Join root t (Cluster.walkFn recordCall) []).2
        = ((entries Join root [] t).filter
            (fun v => v.isJsonFile && !v.isExcludedFile)).map (·.path) := by
  refine ⟨cluster_Walk_eq Join processFile root t s, ?_⟩
  rw [cluster_Walk_eq, invokeAll_recordCall]
  simp

/-- C3: on every directory tree the walk of `src/main.go` returns `nil`
and invokes `processFile` on exactly the entries that are non-directories
with extension `.json` and do not lie under a directory named `error`,
once each and in walk order; the callback returns `SkipDir` for such a
directory, so its whole subtree contributes no file, and the files outside
are passed as without the rule. -/
theorem main_walk_skips_error_subtrees {σ : Type} (Join : String → String → String)
    (processFile : String → σ → σ) (root : String) (t : DirTree) (s : σ) :
    Walk Join root t (Main.walkFn processFile) s
        = (.nil, invokeAll processFile
            (((entries Join root [] t).filter
              (fun v => v.isJsonFile && !v.underErrorDir)).map (·.path)) s) ∧
    (Walk Join root t (Main.walkFn recordCall) []).2
        = ((entries Join root [] t).filter
            (fun v => v.isJsonFile && !v.underErrorDir)).map (·.path) ∧
    (∀ path : String, Main.walkFn processFile path ⟨"error", true⟩ .nil s = (.SkipDir, s)) := by
  refine ⟨main_Walk_eq Join processFile root t s, ?_, fun path => ?_⟩
  · rw [main_Walk_eq, invokeAll_recordCall]
    simp
  · rw [main_walkFn_nil]
    simp

/-- C4, as stated, fails: the walk of `src/main.go` passes the file
`poems/唐诗补录.json` to `processFile`, and the walk of
`src/cluster/main.go` passes the file `poems/error/a.json`, which lies
under a directory named `error`. -/
theorem walks_do_not_share_exclusions :
    (Walk slashJoin "poems" treeWithExcludedName (Main.walkFn recordCall) []).2
        = ["poems/唐诗补录.json"] ∧
    (Walk slashJoin "poems" treeWithErrorDir (Cluster.walkFn recordCall) []).2
        = ["poems/error/a.json"] := by
  decide

/-- C4, amended: each exclusion policy is kept by the walk that implements
it. The calls of the walk of `src/cluster/main.go` are the paths of a
sublist of the entries none of which is a file named `唐诗补录.json` or
`表面结构字.json`, and the calls of the walk of `src/main.go` are the
paths of a sublist of the entries none of which lies under a directory
named `error`. -/
theorem each_walk_keeps_its_own_exclusion (Join : String → String → String) (root : String)
    (t : DirTree) :
    (∃ vs : List Visit, vs.Sublist (entries Join root [] t) ∧
      (∀ v ∈ vs, v.isExcludedFile = false) ∧
      (Walk Join root t (Cluster.walkFn recordCall) []).2 = vs.map (·.path)) ∧
    (∃ vs : List Visit, vs.Sublist (entries Join root [] t) ∧
      (∀ v ∈ vs, v.underErrorDir = false) ∧
      (Walk Join root t (Main.walkFn recordCall) []).2 = vs.map (·.path)) := by
  constructor
  · refine ⟨(entries Join root [] t).filter (fun v => v.isJsonFile && !v.isExcludedFile),
      List.filter_sublist _, ?_, ?_⟩
    · intro v hv
      have := (List.mem_filter.mp hv).2
      simp only [Bool.and_eq_true, Bool.not_eq_true'] at this
      exact this.2
    · rw [cluster_Walk_eq, invokeAll_recordCall]
      simp
  · refine ⟨(entries Join root [] t).filter (fun v => v.isJsonFile && !v.underErrorDir),
      List.filter_sublist _, ?_, ?_⟩
    · intro v hv
      have := (List.mem_filter.mp hv).2
      simp only [Bool.and_eq_true, Bool.not_eq_true'] at this
      exact this.2
    · rw [main_Walk_eq, invokeAll_recordCall]
      simp

/-! ### The extension test and failing files -/

theorem Ext_beq_json (path : String) : (Ext path == ".json") = HasSuffix path ".json" := by
  cases h : HasSuffix path ".json"
  · have : ¬ Ext path = ".json" := fun e => by
      rw [(Ext_eq_json_iff path).mp e] at h
      exact Bool.noConfusion h
    simpa using this
  · simpa using (Ext_eq_json_iff path).mpr h

/-- C6: the test `filepath.Ext(path) == ".json"` holds exactly when the
path ends in `.json`; and for an entry visited without a walk error that
no exclusion rule removes, either callback returns `nil` and invokes
`processFile` on the path if and only if the entry is not a directory and
its path ends in `.json`. -/
theorem processFile_invoked_iff_json_suffix {σ : Type} (processFile : String → σ → σ)
    (path : String) (info : FileInfo) (s : σ) :
    ((Ext path == ".json") = HasSuffix path ".json") ∧
    ((info.IsDir && info.Name == "error") = false →
      Main.walkFn processFile path info .nil s
          = (.nil, if (!info.IsDir && HasSuffix path ".json") = true
              then processFile path s else s) ∧
      ((Main.walkFn recordCall path info .nil []).2 = [path]
          ↔ info.IsDir = false ∧ HasSuffix path ".json" = true)) ∧
    ((!info.IsDir && (info.Name == "唐诗补录.json" || info.Name == "表面结构字.json")) = false →
      Cluster.walkFn processFile path info .nil s
          = (.nil, if (!info.IsDir && HasSuffix path ".json") = true
              then processFile path s else s) ∧
      ((Cluster.walkFn recordCall path info .nil []).2 = [path]
          ↔ info.IsDir = false ∧ HasSuffix path ".json" = true)) := by
  refine ⟨Ext_beq_json path, fun h => ?_, fun h => ?_⟩
  · rw [main_walkFn_nil, main_walkFn_nil, h, Ext_beq_json]
    refine ⟨by simp, ?_⟩
    cases info.IsDir <;> cases HasSuffix path ".json" <;> simp [recordCall]
  · rw [cluster_walkFn_nil, cluster_walkFn_nil, h, Ext_beq_json]
    refine ⟨by simp, ?_⟩
    cases info.IsDir <;> cases HasSuffix path ".json" <;> simp [recordCall]

/-- Witness of C6: the file `poems/a.json` is passed to `processFile` by
both callbacks, and the suffix test is case-sensitive. -/
theorem processFile_invoked_iff_json_suffix_witness :
    Main.walkFn recordCall "poems/a.json" ⟨"a.json", false⟩ .nil []
      = (.nil, ["poems/a.json"]) ∧
    Cluster.walkFn recordCall "poems/a.json" ⟨"a.json", false⟩ .nil []
      = (.nil, ["poems/a.json"]) ∧
    HasSuffix "poems/a.JSON" ".json" = false :=
  ⟨((processFile_invoked_iff_json_suffix recordCall "poems/a.json" ⟨"a.json", false⟩ []).2.1
      (by decide)).1,
   ((processFile_invoked_iff_json_suffix recordCall "poems/a.json" ⟨"a.json", false⟩ []).2.2
      (by decide)).1,
   by decide⟩

theorem fileRecords_of_loadFails {α : Type} (ReadFile : String → Except String Bytes)
    (Unmarshal : Bytes → List α × GoError) (filePath : String)
    (h : loadFails ReadFile Unmarshal filePath = true) :
    fileRecords ReadFile Unmarshal filePath = [] := by
  unfold loadFails at h
  unfold fileRecords
  cases hR : ReadFile filePath with
  | error e => rfl
  | ok data =>
    rw [hR] at h
    rcases hU : Unmarshal data with ⟨poems, err⟩
    simp only [hU] at h ⊢
    cases err <;> simp_all

theorem walk_file {σ : Type} (Join : String → String → String) (fn : WalkFunc σ)
    (path name : String) (s : σ) :
    walk Join fn path (.file name) s = fn path ⟨name, false⟩ .nil s := by
  rw [walk]

/-- C5: for a file that cannot be read or does not decode, `processFile`
leaves the bulk sink as it was in both entry points, even when decoding
left elements in the slice; the callback returns `nil` for it, and the
loop of the walk goes on to the entries after it from the same state. -/
theorem failed_file_adds_nothing (T2S : String → String)
    (ReadFile : String → Except String Bytes)
    (UnmarshalMain : Bytes → List Main.Poem × GoError)
    (UnmarshalCluster : Bytes → List Cluster.Poem × GoError)
    (Marshal : Cluster.Poem → Except String Bytes) (filePath : String)
    (hMain : loadFails ReadFile UnmarshalMain filePath = true)
    (hCluster : loadFails ReadFile UnmarshalCluster filePath = true) :
    (∀ bulk, Main.processFile T2S ReadFile UnmarshalMain filePath bulk = bulk) ∧
    (∀ bulk info, info.IsDir = false →
      Main.walkFn (Main.processFile T2S ReadFile UnmarshalMain) filePath info .nil bulk
        = (.nil, bulk)) ∧
    (∀ Join dir name rest bulk, Join dir name = filePath →
      walkNames Join (Main.walkFn (Main.processFile T2S ReadFile UnmarshalMain)) dir
          (.cons (.file name) rest) bulk
        = walkNames Join (Main.walkFn (Main.processFile T2S ReadFile UnmarshalMain)) dir
            rest bulk) ∧
    (∀ bulk, Cluster.processFile T2S ReadFile UnmarshalCluster Marshal filePath bulk = bulk) ∧
    (∀ bulk info, info.IsDir = false →
      Cluster.walkFn (Cluster.processFile T2S ReadFile UnmarshalCluster Marshal) filePath info
          .nil bulk
        = (.nil, bulk)) ∧
    (∀ Join dir name rest bulk, Join dir name = filePath →
      walkNames Join
          (Cluster.walkFn (Cluster.processFile T2S ReadFile UnmarshalCluster Marshal)) dir
          (.cons (.file name) rest) bulk
        = walkNames Join
            (Cluster.walkFn (Cluster.processFile T2S ReadFile UnmarshalCluster Marshal)) dir
            rest bulk) := by
  have pM : ∀ bulk, Main.processFile T2S ReadFile UnmarshalMain filePath bulk = bulk := by
    intro bulk
    rw [main_processFile_eq, fileRecords_of_loadFails _ _ _ hMain]
    simp
  have pC : ∀ bulk,
      Cluster.processFile T2S ReadFile UnmarshalCluster Marshal filePath bulk = bulk := by
    intro bulk
    rw [cluster_processFile_eq, fileRecords_of_loadFails _ _ _ hCluster]
    simp
  have cM : ∀ bulk info, info.IsDir = false →
      Main.walkFn (Main.processFile T2S ReadFile UnmarshalMain) filePath info .nil bulk
        = (.nil, bulk) := by
    intro bulk info hd
    rw [main_walkFn_nil, hd, pM]
    simp
  have cC : ∀ bulk info, info.IsDir = false →
      Cluster.walkFn (Cluster.processFile T2S ReadFile UnmarshalCluster Marshal) filePath info
          .nil bulk
        = (.nil, bulk) := by
    intro bulk info hd
    rw [cluster_walkFn_nil, pC]
    simp
  refine ⟨pM, cM, ?_, pC, cC, ?_⟩
  · intro Join dir name rest bulk hp
    apply walkNames_step Join _ dir (.file name) rest bulk bulk .nil _ (Or.inl rfl)
    rw [walk_file]
    show Main.walkFn _ (Join dir name) _ _ _ = _
    rw [hp]
    exact cM bulk _ rfl
  · intro Join dir name rest bulk hp
    apply walkNames_step Join _ dir (.file name) rest bulk bulk .nil _ (Or.inl rfl)
    rw [walk_file]
    show Cluster.walkFn _ (Join dir name) _ _ _ = _
    rw [hp]
    exact cC bulk _ rfl

/-- Witness of C5: a file holding `[{` whose decoding fails after one
element was stored adds nothing to the sink of `src/main.go`. -/
theorem failed_file_adds_nothing_witness :
    loadFails readTruncated Main.unmarshalPartial "poems/a.json" = true ∧
    loadFails readTruncated Cluster.unmarshalPartial "poems/a.json" = true ∧
    Main.processFile id readTruncated Main.unmarshalPartial "poems/a.json" [nightThoughts]
      = [nightThoughts] :=
  ⟨by decide, by decide,
   (failed_file_adds_nothing id readTruncated Main.unmarshalPartial Cluster.unmarshalPartial
      (fun _ => .ok []) "poems/a.json" (by decide) (by decide)).1 [nightThoughts]⟩

/-! ### The definitions on concrete inputs -/

theorem Ext_examples :
    Ext "poems/b.json" = ".json" ∧ Ext "poems.d/readme" = "" ∧ Ext "a.tar.json" = ".json" ∧
    Ext ".json" = ".json" ∧ Ext "b.JSON" = ".JSON" ∧ Ext "b.json.bak" = ".bak" := by
  decide

theorem main_walk_sampleTree :
    Walk slashJoin "poems" sampleTree (Main.walkFn recordCall) []
      = (.nil, ["poems/唐诗补录.json", "poems/b.json"]) := by
  decide

theorem cluster_walk_sampleTree :
    Walk slashJoin "poems" sampleTree (Cluster.walkFn recordCall) []
      = (.nil, ["poems/error/a.json", "poems/b.json"]) := by
  decide

theorem main_walk_root_named_error :
    Walk slashJoin "error" (.dir "error" (.cons (.file "a.json") .nil))
      (Main.walkFn recordCall) [] = (.nil, []) := by
  decide

theorem reportResults_examples :
    Cluster.reportResults ⟨10, 9, 1, 9, 9, 0, 0, 1⟩ = .Fatalf 9 1 ∧
    Cluster.reportResults ⟨10, 10, 0, 10, 10, 0, 0, 1⟩ = .Completed 10 := by
  decide

end ElasticPoems
